import Mathlib

/-!
Shallow embedding of the pmem-manager epoch-based garbage-collection engine
(dbgroup-nagoya-u/pmem-manager), translated from the C++ sources:

* `src/include/pmem/memory/component/garbage_list_in_dram.hpp` and
  `src/src/component/garbage_list_in_dram.cpp` (the volatile half of a
  buffer node and its index-manipulating operations),
* `src/include/pmem/memory/component/garbage_list_in_pmem.hpp` and
  `src/src/component/garbage_list_in_pmem.cpp` (the durable half, the
  crash-consistent head exchange and the recovery sweep),
* `src/src/component/tls_fields.cpp` (scratch-slot comparison),
* `src/include/pmem/memory/component/list_header.hpp` (the per-thread list
  header), and
* `src/include/pmem/memory/epoch_based_gc.hpp` (the GC running flag).

Modelling conventions:

* `PMEMoid` is a pair of naturals (`pool_uuid_lo`, `off`); PMDK's
  `OID_IS_NULL` tests only the offset, `OID_EQUALS` tests both fields.
* The durable `next` backbone of a garbage-list chain is represented by
  list adjacency in the sweep models (`Destruct`, `Clear`,
  `ListHeader.ClearGarbage`); popping a node via `ExchangeHead` is
  represented by removing it from the list.  The handle-level semantics
  of `ExchangeHead` (copying only the `off` word) is modelled separately
  on explicit handles, as is the recovery walk `ReleaseAllGarbages`.
* Concurrency is resolved sequentially: atomic loads return the current
  model value and the CAS in the rescue path of `Destruct` succeeds
  exactly when its expected value matches, which in a single-threaded
  execution is always the case.
* Destructor invocations (`DestructGarbage`) and frees (`ReleaseGarbage`,
  `pmemobj_free`) are recorded as events so that theorems can speak about
  which slots were finalized or released during a call.
-/

/-- The number of garbage slots in each list (`kBufferSize` in
`utility.hpp`). -/
def kBufferSize : Nat := 252

/-- The number of temporary (scratch) fields per thread (`kTmpFieldNum` in
`utility.hpp`). -/
def kTmpFieldNum : Nat := 13

/-- The tag bit marking a consumed reuse hand-off (`kUsed` in
`garbage_list_in_dram.hpp`, `1UL << 63`). -/
def kUsed : Nat := 2 ^ 63

/-- A PMDK persistent object handle: a pool identifier and an offset. -/
structure PMEMoid where
  pool_uuid_lo : Nat
  off : Nat
deriving DecidableEq, Repr

/-- The null handle (`OID_NULL`). -/
def OID_NULL : PMEMoid := ⟨0, 0⟩

/-- PMDK's null test: only the offset is inspected. -/
def OID_IS_NULL (o : PMEMoid) : Bool := o.off == 0

/-- PMDK's handle equality: both fields are compared. -/
def OID_EQUALS (a b : PMEMoid) : Bool :=
  a.off == b.off && a.pool_uuid_lo == b.pool_uuid_lo

/-- Events recorded during an operation of the engine. -/
inductive Event where
  /-- `DestructGarbage<T>(pos)` ran the finalizer of slot `pos` of the node
  identified by the first component. -/
  | destructed : Nat → Nat → Event
  /-- `ReleaseGarbage(pos)` (or the recovery sweep) freed the handle held
  in slot `pos` of the node identified by the first component. -/
  | released : Nat → Nat → Event
  /-- The node identified by the argument was freed (`pmemobj_free` on its
  own handle inside `ExchangeHead `or the final free of a drain). -/
  | freedNode : Nat → Event
  /-- `pmemobj_free` was invoked on the given handle held in a temporary
  swap field (`tmp` / `tmp_head` reconciliation). -/
  | freedHandle : PMEMoid → Event
deriving DecidableEq, Repr

/-!
## The volatile half of a buffer node (`GarbageListInDRAM`)

Fields translated from `garbage_list_in_dram.hpp`: the three indices, the
epoch stamps and the `next_` pointer word (a `uintptr_t` whose bit 63 is
the `kUsed` tag).
-/

/-- The volatile half of a buffer node. -/
structure GarbageListInDRAM where
  begin_pos_ : Nat
  mid_pos_ : Nat
  epochs_ : Nat → Nat
  end_pos_ : Nat
  next_ : Nat

/-- The zero-initialized volatile half (`constexpr GarbageListInDRAM() =
default` with the brace-initialized members). -/
def GarbageListInDRAM.init : GarbageListInDRAM :=
  { begin_pos_ := 0, mid_pos_ := 0, epochs_ := fun _ => 0, end_pos_ := 0, next_ := 0 }

/-- The index invariant of a live buffer node:
`0 ≤ begin ≤ mid ≤ end ≤ kBufferSize` (the first inequality is trivial
over `Nat`). -/
def GarbageListInDRAM.Inv (d : GarbageListInDRAM) : Prop :=
  d.begin_pos_ ≤ d.mid_pos_ ∧ d.mid_pos_ ≤ d.end_pos_ ∧ d.end_pos_ ≤ kBufferSize

instance (d : GarbageListInDRAM) : Decidable d.Inv := by
  unfold GarbageListInDRAM.Inv; infer_instance

/-- `GarbageListInDRAM::Empty` from `garbage_list_in_dram.cpp`: the
difference `end_pos_ - begin_pos_` is computed in `size_t` arithmetic,
i.e. modulo `2 ^ 64`. -/
def GarbageListInDRAM.Empty (d : GarbageListInDRAM) : Bool :=
  ((d.end_pos_ + (2 ^ 64 - d.begin_pos_ % 2 ^ 64)) % 2 ^ 64 == 0)
    && d.end_pos_ < kBufferSize

/-!
## The durable half (`GarbageListInPMEM`): slot-level operations

`GarbageListInPMEM::AddGarbage`, `ReusePage` and the head exchange from
`garbage_list_in_pmem.cpp`.  The slot array is a function from positions
to handles.
-/

/-- `GarbageListInPMEM::AddGarbage(pos, garbage)`: copy both fields of
`*garbage` into `garbages_[pos]`, persist, then null the caller's offset
(`garbage->off = kNullOffset`) and persist it.  Returns the updated slot
array and the caller's handle after the call. -/
def GarbageListInPMEM.AddGarbage (g : Nat → PMEMoid) (pos : Nat)
    (garbage : PMEMoid) : (Nat → PMEMoid) × PMEMoid :=
  (fun i => if i = pos then ⟨garbage.pool_uuid_lo, garbage.off⟩ else g i,
   { garbage with off := 0 })

/-- `GarbageListInPMEM::ReusePage(pos, out_page)`: copy both fields of
`garbages_[pos]` into `*out_page`, persist, then zero the slot's offset
(the slot's `pool_uuid_lo` is left as is).  Returns the updated slot array
and the caller's `out_page` after the call. -/
def GarbageListInPMEM.ReusePage (g : Nat → PMEMoid) (pos : Nat)
    (_out0 : PMEMoid) : (Nat → PMEMoid) × PMEMoid :=
  ((fun i => if i = pos then { g i with off := 0 } else g i),
   ⟨(g pos).pool_uuid_lo, (g pos).off⟩)

/-- Result of `GarbageListInPMEM::ExchangeHead` on explicit handles. -/
structure ExchangeHeadResult where
  /-- The final value of `*head_addr`. -/
  head : PMEMoid
  /-- The final value of `*tmp_addr` (nulled by `pmemobj_free`). -/
  tmp : PMEMoid
  /-- The value `*tmp_addr` held between the copy and the free: the handle
  passed to `pmemobj_free`, i.e. the old head. -/
  freed : PMEMoid

/-- `GarbageListInPMEM::ExchangeHead(list, head_addr, tmp_addr)` from
`garbage_list_in_pmem.cpp`: `*tmp_addr = *head_addr`; then only the offset
word of `*head_addr` is overwritten with `list->next.off` (both fields
share a cache line, one persist covers them); finally
`pmemobj_free(tmp_addr)` frees the old head and nulls `*tmp_addr`.
`list_next` is the value of `list->next`. -/
def GarbageListInPMEM.ExchangeHead (list_next : PMEMoid)
    (head : PMEMoid) : ExchangeHeadResult :=
  let tmp1 := head
  let head1 : PMEMoid := { head with off := list_next.off }
  { head := head1, tmp := OID_NULL, freed := tmp1 }

/-!
## The GC running flag (`EpochBasedGC::StartGC` / `StopGC`)

From `epoch_based_gc.hpp`.  Only the `gc_is_running_` flag decides the
return value; thread spawning and joining have no effect on it.
-/

/-- `EpochBasedGC::StartGC`: if the flag is already set return `false`
and leave it; otherwise set it and return `true`.  The result pair is
(return value, flag after the call). -/
def EpochBasedGC.StartGC (gc_is_running_ : Bool) : Bool × Bool :=
  if gc_is_running_ then (false, gc_is_running_) else (true, true)

/-- `EpochBasedGC::StopGC`: if the flag is clear return `false` and leave
it; otherwise clear it and return `true`.  The result pair is (return
value, flag after the call). -/
def EpochBasedGC.StopGC (gc_is_running_ : Bool) : Bool × Bool :=
  if !gc_is_running_ then (false, gc_is_running_) else (true, false)

/-!
## The sweep loops (`GarbageListInDRAM::Destruct` / `Clear`)

The chain reachable from `*list_oid` is represented as a list of nodes in
link order; the durable `next`/`tmp` backbone is implicit in the
adjacency and `ExchangeHead` inside a sweep is modelled as removal of the
popped node (its handle-level behaviour is `GarbageListInPMEM.ExchangeHead`
above).  Each node carries an identifier `nid` used to name it in events.
-/

/-- A buffer node as seen by the sweep loops: an identifier and its
volatile half.  (The sweeps consult only the volatile indices, the epoch
stamps and the `next_` word; slot contents are reported through events.) -/
structure DNode where
  nid : Nat
  dram : GarbageListInDRAM

/-- The scan `for (; mid_pos < end_pos && epochs_[mid_pos] <
protected_epoch; ++mid_pos)`, fuelled structurally so that it reduces in
the kernel.  `scanFromAux P ep e fuel m` advances `m` while `m < e` and
`ep m < P`, at most `fuel` times. -/
def scanFromAux (P : Nat) (ep : Nat → Nat) (e : Nat) : Nat → Nat → Nat
  | 0, m => m
  | fuel + 1, m => if m < e then (if ep m < P then scanFromAux P ep e fuel (m + 1) else m) else m

/-- The final index reached by the epoch scan started at `m`: `e` is also
a sufficient fuel bound because each step requires `m < e`. -/
def scanFrom (P : Nat) (ep : Nat → Nat) (e m : Nat) : Nat :=
  scanFromAux P ep e e m

/-- The `reuse_head` bookkeeping of `Destruct`: the recorded node's
`begin_pos_` (reread on each use) and the current value of its `next_`
word (read as the CAS expectation and checked for the `kUsed` bit). -/
structure ReuseRef where
  begin0 : Nat
  next_word : Nat

/-- The finalizer events produced by one epoch scan of `Destruct`
(`DestructGarbage<T>` is invoked only when `T` is not `void`). -/
def destructEvents (hasDtor : Bool) (nid m0 m : Nat) : List Event :=
  if hasDtor then (List.range' m0 (m - m0)).map (Event.destructed nid) else []

/-- The release events of the `Destruct` rescue path:
`for (; pos < kBufferSize; ++pos) pmem->ReleaseGarbage(pos)`. -/
def rescueEvents (nid pos : Nat) : List Event :=
  (List.range' pos (kBufferSize - pos)).map (Event.released nid)

/-- The loop body of `GarbageListInDRAM::Destruct<T>` from
`garbage_list_in_dram.hpp` (lines 118-170), sequentially resolved.  The
result is the final chain (`none` when the walk dereferences a null
handle, which cannot happen on well-formed states) and the events of the
call.  Per iteration: load `end_pos_` and `mid_pos_`, run the epoch scan
(finalizing when `T` is non-void), store the new `mid_pos_`, and stop if
it is below `kBufferSize`.  Otherwise, with `pos = begin_pos_`: if
`pos > 0` clear `reuse_head` and, when `pos = kBufferSize`, pop the node;
if `pos = 0` attempt the reuse rescue (release every slot of the node and
pop it when the recorded `reuse_head` still has `begin_pos_ = 0` and an
untagged `next_` word, updating that word with the popped node's), else
record the node as `reuse_head` and walk on. -/
def GarbageListInDRAM.DestructLoop (hasDtor : Bool) (P : Nat) :
    Option ReuseRef → List DNode → Option (List DNode) × List Event
  | _, [] => (none, [])
  | r, c :: rest =>
    let e := c.dram.end_pos_
    let m0 := c.dram.mid_pos_
    let m := scanFrom P c.dram.epochs_ e m0
    let devs := destructEvents hasDtor c.nid m0 m
    let c1 : DNode := { c with dram := { c.dram with mid_pos_ := m } }
    if m < kBufferSize then
      (some (c1 :: rest), devs)
    else
      let pos := c1.dram.begin_pos_
      if 0 < pos then
        if pos = kBufferSize then
          let res := GarbageListInDRAM.DestructLoop hasDtor P none rest
          (res.1, devs ++ Event.freedNode c.nid :: res.2)
        else
          let res := GarbageListInDRAM.DestructLoop hasDtor P none rest
          (res.1.map (c1 :: ·), devs ++ res.2)
      else
        let doRescue :=
          match r with
          | some rr => rr.begin0 == 0 && !rr.next_word.testBit 63
          | none => false
        if doRescue then
          let r1 := r.map fun rr => { rr with next_word := c.dram.next_ }
          let res := GarbageListInDRAM.DestructLoop hasDtor P r1 rest
          (res.1, devs ++ rescueEvents c.nid pos ++ Event.freedNode c.nid :: res.2)
        else
          let res := GarbageListInDRAM.DestructLoop hasDtor P
            (some ⟨pos, c.dram.next_⟩) rest
          (res.1.map (c1 :: ·), devs ++ res.2)

/-- `GarbageListInDRAM::Destruct<T>(list_oid, protected_epoch, tmp_oid)`:
the loop started with `reuse_head = nullptr`.  `hasDtor` is `true` when
`T` is not `void`. -/
def GarbageListInDRAM.Destruct (hasDtor : Bool) (P : Nat)
    (chain : List DNode) : Option (List DNode) × List Event :=
  GarbageListInDRAM.DestructLoop hasDtor P none chain

/-- The release-then-scan events of one `Clear` iteration: unconditional
releases of `[b, m)` followed, for each scanned position, by the optional
finalizer and the release. -/
def clearEvents (hasDtor : Bool) (nid b m p1 p2 : Nat) : List Event :=
  (List.range' b (m - b)).map (Event.released nid) ++
    (List.range' p1 (p2 - p1)).flatMap (fun i =>
      (if hasDtor then [Event.destructed nid i] else []) ++ [Event.released nid i])

/-- `GarbageListInDRAM::Clear<T>` from `garbage_list_in_dram.hpp` (lines
179-209), sequentially resolved.  Per iteration on the head node: release
slots `[begin_pos_, mid_pos_)` unconditionally, then release (finalizing
first when `T` is non-void) while the epoch scan from
`max begin_pos_ mid_pos_` admits it; store the reached position into both
`begin_pos_` and `mid_pos_`; stop when it is below `kBufferSize`,
otherwise pop the head node and continue on the remaining chain. -/
def GarbageListInDRAM.Clear (hasDtor : Bool) (P : Nat) :
    List DNode → Option (List DNode) × List Event
  | [] => (none, [])
  | c :: rest =>
    let m0 := c.dram.mid_pos_
    let b := c.dram.begin_pos_
    let p1 := max b m0
    let e := c.dram.end_pos_
    let p2 := scanFrom P c.dram.epochs_ e p1
    let evs := clearEvents hasDtor c.nid b m0 p1 p2
    let c1 : DNode := { c with dram := { c.dram with begin_pos_ := p2, mid_pos_ := p2 } }
    if p2 < kBufferSize then
      (some (c1 :: rest), evs)
    else
      let res := GarbageListInDRAM.Clear hasDtor P rest
      (res.1, evs ++ Event.freedNode c.nid :: res.2)

/-!
## The mutator fast paths (`GarbageListInDRAM::AddGarbage` / `ReusePage`)

From `garbage_list_in_dram.cpp`.  These act on the node `*list_addr`
points to (the client tail resp. head), here a `Node` pairing the durable
slot array and link fields with the volatile half.  Freshly allocated
durable storage is zero-initialized (`Zalloc`), so the created node is
the all-null node; the allocator's choice of handle and of direct address
are parameters.
-/

/-- A buffer node with both halves, as used by the mutator fast paths. -/
structure Node where
  next : PMEMoid
  tmp : PMEMoid
  garbages_ : Nat → PMEMoid
  dram : GarbageListInDRAM

/-- Result of `GarbageListInDRAM::AddGarbage`. -/
structure AddGarbageResult where
  /-- The node `*list_addr` pointed to at entry, after the call. -/
  tail : Node
  /-- The freshly created next node, when one was created. -/
  created : Option Node
  /-- Whether `*list_addr` was redirected to the created node. -/
  moved : Bool
  /-- The caller's garbage handle after the call. -/
  garbage : PMEMoid

/-- `GarbageListInDRAM::AddGarbage(list_addr, epoch, garbage, pop)`: with
`pos = end_pos_` (relaxed load), stamp `epochs_[pos] = epoch` and file the
handle via `GarbageListInPMEM::AddGarbage(pos, garbage)`.  If
`pos = kBufferSize - 1`, create the next durable node
(`CreateNextList`: `Zalloc` into `next`, zero-initialized), publish its
direct address in the volatile `next_` word, give it a fresh volatile
half and redirect `*list_addr` to it.  Finally `end_pos_.fetch_add(1)`.
`freshOid` is the handle chosen by `Zalloc` and `freshPtr` the direct
address of the new node. -/
def GarbageListInDRAM.AddGarbage (tail : Node) (epoch : Nat)
    (garbage : PMEMoid) (freshOid : PMEMoid) (freshPtr : Nat) :
    AddGarbageResult :=
  let pos := tail.dram.end_pos_
  let dram1 := { tail.dram with epochs_ := fun i => if i = pos then epoch else tail.dram.epochs_ i }
  let fg := GarbageListInPMEM.AddGarbage tail.garbages_ pos garbage
  if pos = kBufferSize - 1 then
    { tail := { tail with
        next := freshOid,
        garbages_ := fg.1,
        dram := { dram1 with next_ := freshPtr, end_pos_ := pos + 1 } },
      created := some
        { next := OID_NULL, tmp := OID_NULL, garbages_ := fun _ => OID_NULL,
          dram := GarbageListInDRAM.init },
      moved := true,
      garbage := fg.2 }
  else
    { tail := { tail with
        garbages_ := fg.1,
        dram := { dram1 with end_pos_ := pos + 1 } },
      created := none,
      moved := false,
      garbage := fg.2 }

/-- Result of `GarbageListInDRAM::ReusePage`. -/
structure ReusePageResult where
  /-- The node `*list_addr` pointed to at entry, after the call. -/
  node : Node
  /-- The caller's `out_page` after the call. -/
  out : PMEMoid
  /-- The untagged `next_` word installed into `*list_addr` when the head
  advanced (`none` when `*list_addr` was not changed). -/
  moved : Option Nat

/-- `GarbageListInDRAM::ReusePage(list_addr, out_page)`: with
`pos = begin_pos_` (relaxed) and `mid = mid_pos_` (acquire), return
immediately when they are equal.  Otherwise take the slot via
`GarbageListInPMEM::ReusePage(pos, out_page)`; when
`pos = kBufferSize - 1`, tag the `next_` word with `kUsed` by CAS (which
in a sequential run succeeds with the loaded expectation) and redirect
`*list_addr` to the loaded pointer; finally `begin_pos_.fetch_add(1)`. -/
def GarbageListInDRAM.ReusePage (head : Node) (out0 : PMEMoid) :
    ReusePageResult :=
  let pos := head.dram.begin_pos_
  let mid := head.dram.mid_pos_
  if pos = mid then
    { node := head, out := out0, moved := none }
  else
    let go := GarbageListInPMEM.ReusePage head.garbages_ pos out0
    if pos = kBufferSize - 1 then
      let next0 := head.dram.next_
      { node := { head with
          garbages_ := go.1,
          dram := { head.dram with next_ := next0 ||| kUsed, begin_pos_ := pos + 1 } },
        out := go.2,
        moved := some next0 }
    else
      { node := { head with
          garbages_ := go.1,
          dram := { head.dram with begin_pos_ := pos + 1 } },
        out := go.2,
        moved := none }

/-!
## The per-thread list header (`ListHeader<Target>::ClearGarbage`)

From `list_header.hpp` (lines 168-193).  The header's durable chain
(`*gc_head_` and its successors) is a `DNode` list as in the sweep
models; `cli_head_`/`cli_tail_` are volatile pointers modelled as
optional node identifiers.
-/

/-- The volatile per-thread list header. -/
structure ListHeader where
  /-- Whether `heartbeat_.expired()` holds (stable during a sequential
  call). -/
  heartbeat_expired : Bool
  /-- The client head pointer (`nullptr` is `none`). -/
  cli_head_ : Option Nat
  /-- The client tail pointer (`nullptr` is `none`). -/
  cli_tail_ : Option Nat
  /-- Whether `gc_head_ != nullptr`, i.e. the header has been bound. -/
  bound : Bool
  /-- The durable chain reachable from `*gc_head_` (`[]` when the head
  handle is null). -/
  chain : List DNode
  /-- `Target::kReusePages`. -/
  kReusePages : Bool
  /-- Whether `Target::T` is not `void`. -/
  hasDtor : Bool

/-- `ListHeader::ClearGarbage(protected_epoch)`: return unchanged unless
`try_lock` succeeds, the header is bound and the durable head is
non-null.  Run `Clear` when the target does not reuse pages or the
owner's heartbeat has expired, `Destruct` otherwise.  Afterwards, when
the heartbeat has expired and the (new) head node's volatile half is
`Empty()`, delete that volatile half, null `cli_tail_` and `cli_head_`
and free the durable head handle.  The first component is `none` when a
sweep dereferenced a null handle (unreachable on well-formed states). -/
def ListHeader.ClearGarbage (s : ListHeader) (locked : Bool) (P : Nat) :
    Option ListHeader × List Event :=
  if !locked || !s.bound || s.chain.isEmpty then (some s, [])
  else
    let res :=
      if !s.kReusePages then GarbageListInDRAM.Clear s.hasDtor P s.chain
      else if !s.heartbeat_expired then GarbageListInDRAM.Destruct s.hasDtor P s.chain
      else GarbageListInDRAM.Clear s.hasDtor P s.chain
    match res.1 with
    | none => (none, res.2)
    | some [] => (none, res.2)
    | some (h :: t) =>
      if s.heartbeat_expired && h.dram.Empty then
        (some { s with chain := [], cli_head_ := none, cli_tail_ := none },
         res.2 ++ [Event.freedNode h.nid])
      else
        (some { s with chain := h :: t }, res.2)

/-!
## Thread-local durable fields and the recovery walk

`TLSFields` from `tls_fields.hpp`/`tls_fields.cpp` and
`GarbageListInPMEM::ReleaseAllGarbages` from `garbage_list_in_pmem.cpp`
(lines 64-97).  Here the chain is a list of durable nodes carrying
explicit handles: `self` is the node's own handle, `next` and `tmp` its
link fields, and the walk follows the stored offsets exactly as the code
does (`ExchangeHead` copies only `off` into the head handle).
-/

/-- A durable buffer node with explicit handles, for the recovery walk. -/
structure PNode where
  nid : Nat
  self : PMEMoid
  next : PMEMoid
  tmp : PMEMoid
  garbages_ : Nat → PMEMoid

/-- The thread-local durable fields (`struct TLSFields`). -/
structure TLSFields where
  tmp_oids : Nat → PMEMoid
  head : PMEMoid
  tmp_head : PMEMoid

/-- The scratch-array scan underlying `TLSFields::HasSamePMEMoid`:
whether some slot `tmps i`, `i < kTmpFieldNum`, satisfies
`OID_EQUALS(tmps i, oid)`. -/
def hasSameIn (tmps : Nat -> PMEMoid) (oid : PMEMoid) : Bool :=
  (List.range kTmpFieldNum).any fun i => OID_EQUALS (tmps i) oid

/-- `TLSFields::HasSamePMEMoid(oid)` from `tls_fields.cpp`. -/
def TLSFields.HasSamePMEMoid (tls : TLSFields) (oid : PMEMoid) : Bool :=
  hasSameIn tls.tmp_oids oid

/-- Well-formedness of a durable chain rooted at `root`: the empty chain
stands for a null root, and each node's stored `self` handle is the
handle the walk holds for it, the successor chain being rooted at the
handle `ExchangeHead` would construct (the root's pool identifier with
the stored `next` offset). -/
def wfChain : PMEMoid → List PNode → Bool
  | root, [] => root.off == 0
  | root, n :: rest =>
    root.off != 0 && n.self == root && wfChain ⟨root.pool_uuid_lo, n.next.off⟩ rest

/-- The reconciliation of a node's `tmp` field against its `next` field
during recovery: a non-null `tmp` equal to `next` is a leftover from an
interrupted swap and is nulled durably; otherwise it is freed (which also
nulls it).  Returns the events of the step (the final `tmp` is null in
every case). -/
def tmpReconcileEvents (n : PNode) : List Event :=
  if OID_IS_NULL n.tmp then []
  else if OID_EQUALS n.tmp n.next then []
  else [Event.freedHandle n.tmp]

/-- The slot sweep of one node during recovery: free `garbages_[i]` for
each `i < kBufferSize` whose handle is non-null and matches no scratch
slot. -/
def releaseSlotEvents (tmps : Nat -> PMEMoid) (n : PNode) : List Event :=
  (List.range kBufferSize).filterMap fun i =>
    if OID_IS_NULL (n.garbages_ i) || hasSameIn tmps (n.garbages_ i) then none
    else some (Event.released n.nid i)

/-- The loop of `ReleaseAllGarbages`: for the node `tls.head` refers to,
reconcile its `tmp`, sweep its slots, and either stop (freeing
`tls.head` itself, which nulls it) when its stored `next` offset is zero,
or pop it via `ExchangeHead` (only the offset of `tls.head` is
overwritten; `tmp_head` is used for the swap and is null after the free)
and continue with the next node. -/
def releaseAllLoop (tls : TLSFields) : List PNode → TLSFields × List Event
  | [] => (tls, [])
  | n :: rest =>
    let evs := tmpReconcileEvents n ++ releaseSlotEvents tls.tmp_oids n
    if n.next.off = 0 then
      ({ tls with head := OID_NULL }, evs ++ [Event.freedNode n.nid])
    else
      let tls1 : TLSFields :=
        { tls with head := ⟨tls.head.pool_uuid_lo, n.next.off⟩, tmp_head := OID_NULL }
      let res := releaseAllLoop tls1 rest
      (res.1, evs ++ Event.freedNode n.nid :: res.2)

/-- The initial reconciliation of `tls.tmp_head` against `tls.head`: a
non-null `tmp_head` equal to `head` is a leftover from an interrupted
swap and is nulled durably, otherwise it is freed (which also nulls it);
either way `tmp_head` is null afterwards and `head` and the scratch
slots are untouched.  This is the state change of the step. -/
def tmpHeadReconcile (tls : TLSFields) : TLSFields :=
  if OID_IS_NULL tls.tmp_head then tls else { tls with tmp_head := OID_NULL }

/-- The events of the initial `tmp_head` reconciliation: a free happens
exactly when `tmp_head` is non-null and differs from `head`. -/
def tmpHeadEvents (tls : TLSFields) : List Event :=
  if OID_IS_NULL tls.tmp_head then []
  else if OID_EQUALS tls.tmp_head tls.head then []
  else [Event.freedHandle tls.tmp_head]

/-- `GarbageListInPMEM::ReleaseAllGarbages(tls)`: return at once when
`tls.head` is null; otherwise first reconcile `tls.tmp_head` against
`tls.head` and then run the chain walk. -/
def GarbageListInPMEM.ReleaseAllGarbages (tls : TLSFields)
    (chain : List PNode) : TLSFields × List Event :=
  if OID_IS_NULL tls.head then (tls, [])
  else
    let res := releaseAllLoop (tmpHeadReconcile tls) chain
    (res.1, tmpHeadEvents tls ++ res.2)

/-!
## Concrete data for closed instantiations

Small concrete states used by the closed witness theorems at the end of
the file.
-/

/-- A node with one pending garbage slot stamped with epoch 5. -/
def wDramPending : GarbageListInDRAM :=
  { begin_pos_ := 0, mid_pos_ := 0, epochs_ := fun _ => 5, end_pos_ := 1, next_ := 0 }

/-- The pending node, with identifier 0. -/
def wDNodePending : DNode := { nid := 0, dram := wDramPending }

/-- The pending node after `Destruct` with protected epoch 7 moved
`mid_pos_` past the slot. -/
def wDNodePendingMid : DNode :=
  { nid := 0, dram := { wDramPending with mid_pos_ := 1 } }

/-- The pending node after `Clear` with protected epoch 7 released the
slot and moved both cursors past it. -/
def wDNodePendingDone : DNode :=
  { nid := 0, dram := { wDramPending with begin_pos_ := 1, mid_pos_ := 1 } }

/-- A node in the zero-initialized (empty) state, with identifier 0. -/
def wDNodeZero : DNode := { nid := 0, dram := GarbageListInDRAM.init }

/-- A tail node with three filed garbage slots. -/
def wNodeTail : Node :=
  { next := OID_NULL, tmp := OID_NULL, garbages_ := fun _ => OID_NULL,
    dram := { begin_pos_ := 0, mid_pos_ := 0, epochs_ := fun _ => 0,
              end_pos_ := 3, next_ := 0 } }

/-- A head node with one destructed, reusable slot. -/
def wNodeHead : Node :=
  { next := OID_NULL, tmp := OID_NULL,
    garbages_ := fun i => if i = 0 then ⟨5, 40⟩ else OID_NULL,
    dram := { begin_pos_ := 0, mid_pos_ := 1, epochs_ := fun _ => 0,
              end_pos_ := 1, next_ := 0 } }

/-- Thread-local fields with one in-flight scratch handle and a two-node
chain head. -/
def wTls : TLSFields :=
  { tmp_oids := fun j => if j = 0 then ⟨5, 99⟩ else OID_NULL,
    head := ⟨5, 10⟩, tmp_head := OID_NULL }

/-- First chain node: slot 0 matches the scratch handle, slot 1 does
not. -/
def wPNode1 : PNode :=
  { nid := 0, self := ⟨5, 10⟩, next := ⟨5, 20⟩, tmp := OID_NULL,
    garbages_ := fun i => if i = 0 then ⟨5, 99⟩ else if i = 1 then ⟨5, 77⟩
      else OID_NULL }

/-- Second (last) chain node, fully null. -/
def wPNode2 : PNode :=
  { nid := 1, self := ⟨5, 20⟩, next := OID_NULL, tmp := OID_NULL,
    garbages_ := fun _ => OID_NULL }

/-- Thread-local fields with a null chain head but a non-null
`tmp_head`. -/
def wTlsNullHead : TLSFields :=
  { tmp_oids := fun _ => OID_NULL, head := OID_NULL, tmp_head := ⟨3, 9⟩ }

/-- A bound list header whose owner has exited, holding one empty
node. -/
def wHdrDead : ListHeader :=
  { heartbeat_expired := true, cli_head_ := some 3, cli_tail_ := some 3,
    bound := true, chain := [wDNodeZero], kReusePages := false,
    hasDtor := false }

/-- The same header while its owner is still alive. -/
def wHdrLive : ListHeader := { wHdrDead with heartbeat_expired := false }

/-!
## Helper lemmas about the epoch scan
-/

theorem scanFromAux_ge (P : Nat) (ep : Nat → Nat) (e : Nat) :
    ∀ fuel m, m ≤ scanFromAux P ep e fuel m := by
  intro fuel
  induction fuel with
  | zero => intro m; simp [scanFromAux]
  | succ k ih =>
    intro m
    simp only [scanFromAux]
    split
    · split
      · exact Nat.le_trans (Nat.le_succ m) (ih (m + 1))
      · exact Nat.le_refl m
    · exact Nat.le_refl m

theorem scanFromAux_le (P : Nat) (ep : Nat → Nat) (e : Nat) :
    ∀ fuel m, m ≤ e → scanFromAux P ep e fuel m ≤ e := by
  intro fuel
  induction fuel with
  | zero => intro m h; simpa [scanFromAux] using h
  | succ k ih =>
    intro m h
    simp only [scanFromAux]
    split
    · split
      · exact ih (m + 1) (by omega)
      · exact h
    · exact h

theorem scanFromAux_mem (P : Nat) (ep : Nat → Nat) (e : Nat) :
    ∀ fuel m i, m ≤ i → i < scanFromAux P ep e fuel m → ep i < P ∧ i < e := by
  intro fuel
  induction fuel with
  | zero => intro m i him hlt; simp [scanFromAux] at hlt; omega
  | succ k ih =>
    intro m i him hlt
    simp only [scanFromAux] at hlt
    by_cases hme : m < e
    · simp only [hme, if_true] at hlt
      by_cases hep : ep m < P
      · simp only [hep, if_true] at hlt
        rcases Nat.eq_or_lt_of_le him with h | h
        · exact ⟨h ▸ hep, h ▸ hme⟩
        · exact ih (m + 1) i h hlt
      · simp only [hep, if_false] at hlt; omega
    · simp only [hme, if_false] at hlt; omega

theorem scanFrom_ge (P : Nat) (ep : Nat → Nat) (e m : Nat) :
    m ≤ scanFrom P ep e m := scanFromAux_ge P ep e e m

theorem scanFrom_le (P : Nat) (ep : Nat → Nat) (e m : Nat) (h : m ≤ e) :
    scanFrom P ep e m ≤ e := scanFromAux_le P ep e e m h

theorem scanFrom_mem (P : Nat) (ep : Nat → Nat) (e m i : Nat)
    (him : m ≤ i) (hlt : i < scanFrom P ep e m) : ep i < P ∧ i < e :=
  scanFromAux_mem P ep e e m i him hlt

/-!
## Helper lemmas about event lists
-/

theorem destructEvents_mem {hasDtor : Bool} {nid m0 m : Nat} {ev : Event}
    (h : ev ∈ destructEvents hasDtor nid m0 m) :
    ∃ i, ev = Event.destructed nid i ∧ m0 ≤ i ∧ i < m := by
  unfold destructEvents at h
  split at h
  · rcases List.mem_map.mp h with ⟨i, hi, rfl⟩
    rcases List.mem_range'_1.mp hi with ⟨h1, h2⟩
    exact ⟨i, rfl, h1, by omega⟩
  · simp at h

theorem rescueEvents_mem {nid pos : Nat} {ev : Event}
    (h : ev ∈ rescueEvents nid pos) :
    ∃ i, ev = Event.released nid i ∧ pos ≤ i ∧ i < kBufferSize := by
  unfold rescueEvents at h
  rcases List.mem_map.mp h with ⟨i, hi, rfl⟩
  rcases List.mem_range'_1.mp hi with ⟨h1, h2⟩
  exact ⟨i, rfl, h1, by omega⟩

theorem clearEvents_mem {hasDtor : Bool} {nid b m p1 p2 : Nat} {ev : Event}
    (h : ev ∈ clearEvents hasDtor nid b m p1 p2) :
    (∃ i, ev = Event.released nid i ∧ b ≤ i ∧ i < m) ∨
      (∃ i, (ev = Event.destructed nid i ∨ ev = Event.released nid i) ∧
        p1 ≤ i ∧ i < p2) := by
  unfold clearEvents at h
  rcases List.mem_append.mp h with h | h
  · rcases List.mem_map.mp h with ⟨i, hi, rfl⟩
    rcases List.mem_range'_1.mp hi with ⟨h1, h2⟩
    exact Or.inl ⟨i, rfl, h1, by omega⟩
  · rcases List.mem_flatMap.mp h with ⟨i, hi, hev⟩
    rcases List.mem_range'_1.mp hi with ⟨h1, h2⟩
    refine Or.inr ⟨i, ?_, h1, by omega⟩
    rcases List.mem_append.mp hev with hev | hev
    · split at hev
      · simp at hev; exact Or.inl hev
      · simp at hev
    · simp at hev; exact Or.inr hev

/-- Soundness predicate for events of a sweep over `chain`: the event
names a node of the chain and is either a node free or a slot event whose
position, when it was pending (`mid_pos_ ≤ i < end_pos_`) at entry, has
an epoch below the protected one. -/
def sweepSound (P : Nat) (chain : List DNode) (ev : Event) : Prop :=
  ∃ n, n ∈ chain ∧
    (ev = Event.freedNode n.nid ∨
      ∃ i, (ev = Event.destructed n.nid i ∨ ev = Event.released n.nid i) ∧
        (n.dram.mid_pos_ ≤ i → i < n.dram.end_pos_ → n.dram.epochs_ i < P))

theorem sweepSound_cons {P : Nat} {c : DNode} {rest : List DNode} {ev : Event}
    (h : sweepSound P rest ev) : sweepSound P (c :: rest) ev := by
  rcases h with ⟨n, hn, hp⟩
  exact ⟨n, List.mem_cons_of_mem c hn, hp⟩

theorem sweepSound_scan {hasDtor : Bool} {P : Nat} {c : DNode}
    {rest : List DNode} {ev : Event}
    (h : ev ∈ destructEvents hasDtor c.nid c.dram.mid_pos_
      (scanFrom P c.dram.epochs_ c.dram.end_pos_ c.dram.mid_pos_)) :
    sweepSound P (c :: rest) ev := by
  rcases destructEvents_mem h with ⟨i, rfl, h1, h2⟩
  have hp := scanFrom_mem P c.dram.epochs_ c.dram.end_pos_ c.dram.mid_pos_ i h1 h2
  exact ⟨c, List.mem_cons_self c rest, Or.inr ⟨i, Or.inl rfl, fun _ _ => hp.1⟩⟩

theorem destructLoop_sound (hasDtor : Bool) (P : Nat) :
    ∀ (chain : List DNode) (r : Option ReuseRef) (ev : Event),
      ev ∈ (GarbageListInDRAM.DestructLoop hasDtor P r chain).2 →
      sweepSound P chain ev := by
  intro chain
  induction chain with
  | nil => intro r ev h; simp [GarbageListInDRAM.DestructLoop] at h
  | cons c rest ih =>
    intro r ev h
    simp only [GarbageListInDRAM.DestructLoop] at h
    split at h
    · exact sweepSound_scan h
    · split at h
      · split at h
        · rcases List.mem_append.mp h with h | h
          · exact sweepSound_scan h
          · rcases List.mem_cons.mp h with h | h
            · exact ⟨c, List.mem_cons_self c rest, Or.inl h⟩
            · exact sweepSound_cons (ih none ev h)
        · rcases List.mem_append.mp h with h | h
          · exact sweepSound_scan h
          · exact sweepSound_cons (ih none ev h)
      · split at h
        · rcases List.mem_append.mp h with h | h
          · rcases List.mem_append.mp h with h | h
            · exact sweepSound_scan h
            · rcases rescueEvents_mem h with ⟨i, rfl, h1, h2⟩
              refine ⟨c, List.mem_cons_self c rest, Or.inr ⟨i, Or.inr rfl, ?_⟩⟩
              intro hmid _
              rename_i hnotlt _ _
              have hBm : kBufferSize ≤
                  scanFrom P c.dram.epochs_ c.dram.end_pos_ c.dram.mid_pos_ := by omega
              exact (scanFrom_mem P c.dram.epochs_ c.dram.end_pos_ c.dram.mid_pos_ i
                hmid (by omega)).1
          · rcases List.mem_cons.mp h with h | h
            · exact ⟨c, List.mem_cons_self c rest, Or.inl h⟩
            · exact sweepSound_cons (ih _ ev h)
        · rcases List.mem_append.mp h with h | h
          · exact sweepSound_scan h
          · exact sweepSound_cons (ih _ ev h)

theorem clearLoop_sound (hasDtor : Bool) (P : Nat) :
    ∀ (chain : List DNode) (ev : Event),
      ev ∈ (GarbageListInDRAM.Clear hasDtor P chain).2 →
      sweepSound P chain ev := by
  intro chain
  induction chain with
  | nil => intro ev h; simp [GarbageListInDRAM.Clear] at h
  | cons c rest ih =>
    intro ev h
    have hclear : ∀ e0 : Event,
        e0 ∈ clearEvents hasDtor c.nid c.dram.begin_pos_ c.dram.mid_pos_
          (max c.dram.begin_pos_ c.dram.mid_pos_)
          (scanFrom P c.dram.epochs_ c.dram.end_pos_
            (max c.dram.begin_pos_ c.dram.mid_pos_)) →
        sweepSound P (c :: rest) e0 := by
      intro e0 he
      rcases clearEvents_mem he with ⟨i, rfl, h1, h2⟩ | ⟨i, hi, h1, h2⟩
      · exact ⟨c, List.mem_cons_self c rest, Or.inr ⟨i, Or.inr rfl, by omega⟩⟩
      · have hp := scanFrom_mem P c.dram.epochs_ c.dram.end_pos_
          (max c.dram.begin_pos_ c.dram.mid_pos_) i h1 h2
        exact ⟨c, List.mem_cons_self c rest, Or.inr ⟨i, hi, fun _ _ => hp.1⟩⟩
    simp only [GarbageListInDRAM.Clear] at h
    split at h
    · exact hclear ev h
    · rcases List.mem_append.mp h with h | h
      · exact hclear ev h
      · rcases List.mem_cons.mp h with h | h
        · exact ⟨c, List.mem_cons_self c rest, Or.inl h⟩
        · exact sweepSound_cons (ih ev h)

theorem destructLoop_inv (hasDtor : Bool) (P : Nat) :
    ∀ (chain : List DNode) (r : Option ReuseRef) (out : List DNode),
      (GarbageListInDRAM.DestructLoop hasDtor P r chain).1 = some out →
      (∀ n ∈ chain, n.dram.Inv) → ∀ n ∈ out, n.dram.Inv := by
  intro chain
  induction chain with
  | nil => intro r out hout _; simp [GarbageListInDRAM.DestructLoop] at hout
  | cons c rest ih =>
    intro r out hout hinv
    have hc := hinv c (List.mem_cons_self c rest)
    have hrest : ∀ n ∈ rest, n.dram.Inv :=
      fun n hn => hinv n (List.mem_cons_of_mem c hn)
    have hc1 : ({ c with dram := { c.dram with mid_pos_ := (scanFrom P
        c.dram.epochs_ c.dram.end_pos_ c.dram.mid_pos_) } } : DNode).dram.Inv := by
      rcases hc with ⟨h1, h2, h3⟩
      exact ⟨Nat.le_trans h1 (scanFrom_ge P c.dram.epochs_ c.dram.end_pos_ c.dram.mid_pos_),
        scanFrom_le P c.dram.epochs_ c.dram.end_pos_ c.dram.mid_pos_ h2, h3⟩
    simp only [GarbageListInDRAM.DestructLoop] at hout
    split at hout
    · rcases Option.some_inj.mp hout with rfl
      intro n hn
      rcases List.mem_cons.mp hn with rfl | hn
      · exact hc1
      · exact hrest n hn
    · split at hout
      · split at hout
        · exact ih none out hout hrest
        · rcases Option.map_eq_some'.mp hout with ⟨out', hres, rfl⟩
          intro n hn
          rcases List.mem_cons.mp hn with rfl | hn
          · exact hc1
          · exact ih none out' hres hrest n hn
      · split at hout
        · exact ih _ out hout hrest
        · rcases Option.map_eq_some'.mp hout with ⟨out', hres, rfl⟩
          intro n hn
          rcases List.mem_cons.mp hn with rfl | hn
          · exact hc1
          · exact ih _ out' hres hrest n hn

theorem clearLoop_inv (hasDtor : Bool) (P : Nat) :
    ∀ (chain : List DNode) (out : List DNode),
      (GarbageListInDRAM.Clear hasDtor P chain).1 = some out →
      (∀ n ∈ chain, n.dram.Inv) → ∀ n ∈ out, n.dram.Inv := by
  intro chain
  induction chain with
  | nil => intro out hout _; simp [GarbageListInDRAM.Clear] at hout
  | cons c rest ih =>
    intro out hout hinv
    have hc := hinv c (List.mem_cons_self c rest)
    have hrest : ∀ n ∈ rest, n.dram.Inv :=
      fun n hn => hinv n (List.mem_cons_of_mem c hn)
    have hc1 : ({ c with dram := { c.dram with
        begin_pos_ := (scanFrom P c.dram.epochs_ c.dram.end_pos_
          (max c.dram.begin_pos_ c.dram.mid_pos_)),
        mid_pos_ := (scanFrom P c.dram.epochs_ c.dram.end_pos_
          (max c.dram.begin_pos_ c.dram.mid_pos_)) } } : DNode).dram.Inv := by
      rcases hc with ⟨h1, h2, h3⟩
      have hp1 : max c.dram.begin_pos_ c.dram.mid_pos_ ≤ c.dram.end_pos_ := by omega
      exact ⟨Nat.le_refl _,
        scanFrom_le P c.dram.epochs_ c.dram.end_pos_ _ hp1, h3⟩
    simp only [GarbageListInDRAM.Clear] at hout
    split at hout
    · rcases Option.some_inj.mp hout with rfl
      intro n hn
      rcases List.mem_cons.mp hn with rfl | hn
      · exact hc1
      · exact hrest n hn
    · exact ih out hout hrest

/-!
## Helper lemmas about the recovery walk
-/

theorem wfChain_cons {root : PMEMoid} {n : PNode} {rest : List PNode}
    (h : wfChain root (n :: rest) = true) :
    root.off ≠ 0 ∧ n.self = root ∧
      wfChain ⟨root.pool_uuid_lo, n.next.off⟩ rest = true := by
  simp only [wfChain, Bool.and_eq_true, bne_iff_ne, beq_iff_eq] at h
  exact ⟨h.1.1, h.1.2, h.2⟩

theorem wfChain_last {root : PMEMoid} {n : PNode}
    (h : wfChain root [n] = true) : n.next.off = 0 := by
  rcases wfChain_cons h with ⟨-, -, h⟩
  simpa [wfChain] using h

theorem wfChain_next_ne {root : PMEMoid} {n m : PNode} {rest : List PNode}
    (h : wfChain root (n :: m :: rest) = true) : n.next.off ≠ 0 := by
  rcases wfChain_cons h with ⟨-, -, h⟩
  exact (wfChain_cons h).1

theorem releaseAllLoop_head_null :
    ∀ (chain : List PNode) (tls : TLSFields),
      wfChain tls.head chain = true → chain ≠ [] →
      (releaseAllLoop tls chain).1.head = OID_NULL := by
  intro chain
  induction chain with
  | nil => intro tls _ hne; exact absurd rfl hne
  | cons n rest ih =>
    intro tls hwf _
    simp only [releaseAllLoop]
    by_cases h0 : n.next.off = 0
    · simp [h0]
    · have hne : rest ≠ [] := by
        intro hrest
        subst hrest
        exact h0 (wfChain_last hwf)
      have hwf' := (wfChain_cons hwf).2.2
      simp only [h0, if_false]
      exact ih _ hwf' hne

theorem releaseAllLoop_events :
    ∀ (chain : List PNode) (tls : TLSFields),
      wfChain tls.head chain = true →
      (releaseAllLoop tls chain).2 = chain.flatMap fun n =>
        tmpReconcileEvents n ++ releaseSlotEvents tls.tmp_oids n ++
          [Event.freedNode n.nid] := by
  intro chain
  induction chain with
  | nil => intro tls _; simp [releaseAllLoop]
  | cons n rest ih =>
    intro tls hwf
    simp only [releaseAllLoop, List.flatMap_cons]
    by_cases h0 : n.next.off = 0
    · have hrest : rest = [] := by
        cases rest with
        | nil => rfl
        | cons m r => exact absurd h0 (wfChain_next_ne hwf)
      subst hrest
      simp [h0]
    · have hwf' := (wfChain_cons hwf).2.2
      simp only [h0, if_false]
      have hres := ih (TLSFields.mk tls.tmp_oids
        (PMEMoid.mk tls.head.pool_uuid_lo n.next.off) OID_NULL) hwf'
      rw [hres]
      simp [List.append_assoc]

theorem tmpReconcileEvents_shape {n : PNode} {ev : Event}
    (h : ev ∈ tmpReconcileEvents n) : ∃ x, ev = Event.freedHandle x := by
  unfold tmpReconcileEvents at h
  split at h
  · simp at h
  · split at h
    · simp at h
    · simp at h
      exact ⟨n.tmp, h⟩

theorem tmpHeadEvents_shape {tls : TLSFields} {ev : Event}
    (h : ev ∈ tmpHeadEvents tls) : ∃ x, ev = Event.freedHandle x := by
  unfold tmpHeadEvents at h
  split at h
  · simp at h
  · split at h
    · simp at h
    · simp at h
      exact ⟨tls.tmp_head, h⟩

theorem releaseSlotEvents_released_mem {tmps : Nat -> PMEMoid} {n : PNode}
    {nid i : Nat} :
    Event.released nid i ∈ releaseSlotEvents tmps n ↔
      nid = n.nid ∧ i < kBufferSize ∧
        OID_IS_NULL (n.garbages_ i) = false ∧
        hasSameIn tmps (n.garbages_ i) = false := by
  unfold releaseSlotEvents
  rw [List.mem_filterMap]
  constructor
  · rintro ⟨a, ha, hfa⟩
    rw [List.mem_range] at ha
    split at hfa
    · exact absurd hfa (by simp)
    · rename_i hcond
      rw [Option.some.injEq, Event.released.injEq] at hfa
      rcases hfa with ⟨h1, h2⟩
      subst h1; subst h2
      rw [Bool.or_eq_true, not_or] at hcond
      push_neg at hcond
      exact ⟨rfl, ha,
        Bool.not_eq_true _ ▸ Bool.eq_false_iff.mpr hcond.1,
        Bool.eq_false_iff.mpr hcond.2⟩
  · rintro ⟨rfl, hi, h1, h2⟩
    exact ⟨i, List.mem_range.mpr hi, by simp [h1, h2]⟩

theorem hasSame_iff {tmps : Nat -> PMEMoid} {oid : PMEMoid} :
    hasSameIn tmps oid = true ↔
      ∃ j < kTmpFieldNum, (tmps j).off = oid.off ∧
        (tmps j).pool_uuid_lo = oid.pool_uuid_lo := by
  unfold hasSameIn
  rw [List.any_eq_true]
  constructor
  · rintro ⟨j, hj, hq⟩
    rw [List.mem_range] at hj
    simp only [OID_EQUALS, Bool.and_eq_true, beq_iff_eq] at hq
    exact ⟨j, hj, hq.1, hq.2⟩
  · rintro ⟨j, hj, h1, h2⟩
    exact ⟨j, List.mem_range.mpr hj, by simp [OID_EQUALS, h1, h2]⟩

/-!
## Claim theorems
-/

/-- C4: for every position `pos < kBufferSize` and garbage handle `g`,
after `GarbageListInPMEM::AddGarbage(pos, &g)` the durable slot
`garbages_[pos]` holds the pre-call value of `g` (both fields), and the
caller's `g` is null (its `off` field is zero), so a reader of `g` after
return sees a null handle. -/
theorem claim_C4_pmem_add_garbage (g : Nat → PMEMoid) (pos : Nat)
    (garbage : PMEMoid) (_hpos : pos < kBufferSize) :
    (GarbageListInPMEM.AddGarbage g pos garbage).1 pos = garbage ∧
    (GarbageListInPMEM.AddGarbage g pos garbage).2.off = 0 ∧
    OID_IS_NULL (GarbageListInPMEM.AddGarbage g pos garbage).2 = true := by
  refine ⟨?_, rfl, rfl⟩
  simp [GarbageListInPMEM.AddGarbage]

/-- Closed instantiation of the C4 theorem at `pos = 3` and a concrete
handle. -/
theorem claim_C4_pmem_add_garbage_witness :
    (3 : Nat) < kBufferSize ∧
    ((GarbageListInPMEM.AddGarbage (fun _ => OID_NULL) 3 ⟨7, 42⟩).1 3 = ⟨7, 42⟩ ∧
     (GarbageListInPMEM.AddGarbage (fun _ => OID_NULL) 3 ⟨7, 42⟩).2.off = 0 ∧
     OID_IS_NULL (GarbageListInPMEM.AddGarbage (fun _ => OID_NULL) 3 ⟨7, 42⟩).2 = true) :=
  ⟨by decide, claim_C4_pmem_add_garbage (fun _ => OID_NULL) 3 ⟨7, 42⟩ (by decide)⟩

/-- C5: `GarbageListInPMEM::ExchangeHead(list, head_addr, tmp_addr)` on a
chain headed by `list` with head handle `*head_addr` copies the old head
into `*tmp_addr` (the handle later freed), overwrites `*head_addr` so
that it refers to the node previously linked as `list->next` (only the
offset word is stored; in a single pool the result equals `list->next`),
frees the old head via `*tmp_addr` (nulling it), and the remaining chain
is the old chain minus its first node, unchanged. -/
theorem claim_C5_exchange_head (head : PMEMoid) (n : PNode)
    (rest : List PNode) (hwf : wfChain head (n :: rest) = true)
    (huuid : n.next.off = 0 ∨ n.next.pool_uuid_lo = head.pool_uuid_lo) :
    (GarbageListInPMEM.ExchangeHead n.next head).freed = head ∧
    OID_IS_NULL (GarbageListInPMEM.ExchangeHead n.next head).tmp = true ∧
    (GarbageListInPMEM.ExchangeHead n.next head).head =
      ⟨head.pool_uuid_lo, n.next.off⟩ ∧
    (n.next.off ≠ 0 →
      (GarbageListInPMEM.ExchangeHead n.next head).head = n.next) ∧
    wfChain (GarbageListInPMEM.ExchangeHead n.next head).head rest = true := by
  refine ⟨rfl, rfl, rfl, ?_, ?_⟩
  · intro h0
    rcases huuid with h | h
    · exact absurd h h0
    · show (⟨head.pool_uuid_lo, n.next.off⟩ : PMEMoid) = n.next
      rw [← h]
  · exact (wfChain_cons hwf).2.2

/-- Closed instantiation of the C5 theorem on a two-node chain in pool
5. -/
theorem claim_C5_exchange_head_witness :
    wfChain ⟨5, 10⟩ [wPNode1, wPNode2] = true ∧
    (wPNode1.next.off = 0 ∨ wPNode1.next.pool_uuid_lo = (⟨5, 10⟩ : PMEMoid).pool_uuid_lo) ∧
    ((GarbageListInPMEM.ExchangeHead wPNode1.next ⟨5, 10⟩).freed = ⟨5, 10⟩ ∧
     OID_IS_NULL (GarbageListInPMEM.ExchangeHead wPNode1.next ⟨5, 10⟩).tmp = true ∧
     (GarbageListInPMEM.ExchangeHead wPNode1.next ⟨5, 10⟩).head =
       ⟨(⟨5, 10⟩ : PMEMoid).pool_uuid_lo, wPNode1.next.off⟩ ∧
     (wPNode1.next.off ≠ 0 →
       (GarbageListInPMEM.ExchangeHead wPNode1.next ⟨5, 10⟩).head = wPNode1.next) ∧
     wfChain (GarbageListInPMEM.ExchangeHead wPNode1.next ⟨5, 10⟩).head [wPNode2] = true) :=
  ⟨by decide, by decide,
   claim_C5_exchange_head ⟨5, 10⟩ wPNode1 [wPNode2] (by decide) (by decide)⟩

/-- C7: `GarbageListInDRAM::ReusePage(list_addr, out_page)` with
`p = begin_pos_` and `m = mid_pos_` of the head node: when `p = m` the
call returns with `out_page`, the node and `*list_addr` unchanged (so an
initially null `out_page` stays null); otherwise `out_page` receives the
handle stored at durable slot `p`, that slot's `off` field becomes zero,
and `begin_pos_` increases by exactly one. -/
theorem claim_C7_reuse_page (head : Node) (out0 : PMEMoid) :
    (head.dram.begin_pos_ = head.dram.mid_pos_ →
      GarbageListInDRAM.ReusePage head out0 =
        { node := head, out := out0, moved := none }) ∧
    (head.dram.begin_pos_ ≠ head.dram.mid_pos_ →
      (GarbageListInDRAM.ReusePage head out0).out =
        head.garbages_ head.dram.begin_pos_ ∧
      ((GarbageListInDRAM.ReusePage head out0).node.garbages_
        head.dram.begin_pos_).off = 0 ∧
      (GarbageListInDRAM.ReusePage head out0).node.dram.begin_pos_ =
        head.dram.begin_pos_ + 1) := by
  constructor
  · intro h
    simp [GarbageListInDRAM.ReusePage, h]
  · intro h
    unfold GarbageListInDRAM.ReusePage GarbageListInPMEM.ReusePage
    simp only [if_neg h]
    split <;> exact ⟨rfl, by simp, rfl⟩

/-- Closed instantiation of the C7 theorem: the empty-range case on a
node with `begin = mid` and the transfer case on a node with one
reusable slot. -/
theorem claim_C7_reuse_page_witness :
    (wNodeTail.dram.begin_pos_ = wNodeTail.dram.mid_pos_ ∧
     GarbageListInDRAM.ReusePage wNodeTail OID_NULL =
       { node := wNodeTail, out := OID_NULL, moved := none }) ∧
    (wNodeHead.dram.begin_pos_ ≠ wNodeHead.dram.mid_pos_ ∧
     ((GarbageListInDRAM.ReusePage wNodeHead OID_NULL).out =
        wNodeHead.garbages_ wNodeHead.dram.begin_pos_ ∧
      ((GarbageListInDRAM.ReusePage wNodeHead OID_NULL).node.garbages_
        wNodeHead.dram.begin_pos_).off = 0 ∧
      (GarbageListInDRAM.ReusePage wNodeHead OID_NULL).node.dram.begin_pos_ =
        wNodeHead.dram.begin_pos_ + 1)) :=
  ⟨⟨by decide, (claim_C7_reuse_page wNodeTail OID_NULL).1 (by decide)⟩,
   ⟨by decide, (claim_C7_reuse_page wNodeHead OID_NULL).2 (by decide)⟩⟩

/-- C9: `EpochBasedGC::StartGC` returns `false` and leaves the running
flag unchanged when garbage collection is already running, and returns
`true` after setting the flag when it is not; `StopGC` returns `false`
and changes nothing when not running, and returns `true` after clearing
the flag when it is; hence each, called twice in immediate succession
from its enabling state, returns `true` then `false`. -/
theorem claim_C9_start_stop_gc :
    EpochBasedGC.StartGC true = (false, true) ∧
    EpochBasedGC.StartGC false = (true, true) ∧
    EpochBasedGC.StopGC false = (false, false) ∧
    EpochBasedGC.StopGC true = (true, false) ∧
    (EpochBasedGC.StartGC false).1 = true ∧
    (EpochBasedGC.StartGC (EpochBasedGC.StartGC false).2).1 = false ∧
    (EpochBasedGC.StopGC true).1 = true ∧
    (EpochBasedGC.StopGC (EpochBasedGC.StopGC true).2).1 = false := by
  decide

/-- C10: `GarbageListInPMEM::ReleaseAllGarbages(tls)` with a null
`tls->head` returns immediately and leaves `tls` completely unchanged;
in particular a non-null `tls->tmp_head` is neither nulled nor freed. -/
theorem claim_C10_release_all_null_head (tls : TLSFields)
    (chain : List PNode) (hnull : tls.head.off = 0) :
    GarbageListInPMEM.ReleaseAllGarbages tls chain = (tls, []) ∧
    (GarbageListInPMEM.ReleaseAllGarbages tls chain).1.tmp_head =
      tls.tmp_head := by
  have h : OID_IS_NULL tls.head = true := by simp [OID_IS_NULL, hnull]
  have h1 : GarbageListInPMEM.ReleaseAllGarbages tls chain = (tls, []) := by
    unfold GarbageListInPMEM.ReleaseAllGarbages
    simp [h]
  exact ⟨h1, by rw [h1]⟩

/-- Closed instantiation of the C10 theorem on fields whose `tmp_head`
is the non-null handle `(3, 9)`. -/
theorem claim_C10_release_all_null_head_witness :
    wTlsNullHead.head.off = 0 ∧
    OID_IS_NULL wTlsNullHead.tmp_head = false ∧
    (GarbageListInPMEM.ReleaseAllGarbages wTlsNullHead [] = (wTlsNullHead, []) ∧
     (GarbageListInPMEM.ReleaseAllGarbages wTlsNullHead []).1.tmp_head =
       wTlsNullHead.tmp_head) :=
  ⟨by decide, by decide,
   claim_C10_release_all_null_head wTlsNullHead [] (by decide)⟩

/-- C6: `GarbageListInDRAM::AddGarbage(list_addr, epoch, garbage, pop)`
with `p` the tail's `end_pos_` at entry stamps `epochs_[p] = epoch`,
files the garbage handle at durable slot `p` (nulling the caller's
handle), increases `end_pos_` by exactly one, and allocates a new zeroed
node — linked through the durable `next` field and the volatile `next_`
pointer and installed as the new `*list_addr` — if and only if
`p = kBufferSize - 1`; when `p < kBufferSize - 1` the next fields and
`*list_addr` are unchanged. -/
theorem claim_C6_dram_add_garbage (tail : Node) (epoch : Nat)
    (garbage freshOid : PMEMoid) (freshPtr : Nat)
    (_hend : tail.dram.end_pos_ < kBufferSize) :
    (GarbageListInDRAM.AddGarbage tail epoch garbage freshOid
      freshPtr).tail.dram.epochs_ tail.dram.end_pos_ = epoch ∧
    (GarbageListInDRAM.AddGarbage tail epoch garbage freshOid
      freshPtr).tail.garbages_ tail.dram.end_pos_ = garbage ∧
    (GarbageListInDRAM.AddGarbage tail epoch garbage freshOid
      freshPtr).garbage.off = 0 ∧
    (GarbageListInDRAM.AddGarbage tail epoch garbage freshOid
      freshPtr).tail.dram.end_pos_ = tail.dram.end_pos_ + 1 ∧
    (tail.dram.end_pos_ = kBufferSize - 1 →
      (GarbageListInDRAM.AddGarbage tail epoch garbage freshOid
        freshPtr).moved = true ∧
      (GarbageListInDRAM.AddGarbage tail epoch garbage freshOid
        freshPtr).tail.next = freshOid ∧
      (GarbageListInDRAM.AddGarbage tail epoch garbage freshOid
        freshPtr).tail.dram.next_ = freshPtr ∧
      (GarbageListInDRAM.AddGarbage tail epoch garbage freshOid
        freshPtr).created = some
          { next := OID_NULL, tmp := OID_NULL,
            garbages_ := fun _ => OID_NULL,
            dram := GarbageListInDRAM.init }) ∧
    (tail.dram.end_pos_ ≠ kBufferSize - 1 →
      (GarbageListInDRAM.AddGarbage tail epoch garbage freshOid
        freshPtr).moved = false ∧
      (GarbageListInDRAM.AddGarbage tail epoch garbage freshOid
        freshPtr).created = none ∧
      (GarbageListInDRAM.AddGarbage tail epoch garbage freshOid
        freshPtr).tail.next = tail.next ∧
      (GarbageListInDRAM.AddGarbage tail epoch garbage freshOid
        freshPtr).tail.dram.next_ = tail.dram.next_) := by
  unfold GarbageListInDRAM.AddGarbage GarbageListInPMEM.AddGarbage
  by_cases hp : tail.dram.end_pos_ = kBufferSize - 1 <;>
    simp [hp]

/-- Closed instantiations of the C6 theorem: a tail at position 3 (no
new node) and a tail at position `kBufferSize - 1` (new node created and
installed). -/
theorem claim_C6_dram_add_garbage_witness :
    wNodeTail.dram.end_pos_ < kBufferSize ∧
    ((GarbageListInDRAM.AddGarbage wNodeTail 9 ⟨5, 60⟩ ⟨5, 70⟩
        1024).tail.dram.epochs_ wNodeTail.dram.end_pos_ = 9 ∧
     (GarbageListInDRAM.AddGarbage wNodeTail 9 ⟨5, 60⟩ ⟨5, 70⟩
        1024).tail.garbages_ wNodeTail.dram.end_pos_ = ⟨5, 60⟩ ∧
     (GarbageListInDRAM.AddGarbage wNodeTail 9 ⟨5, 60⟩ ⟨5, 70⟩
        1024).garbage.off = 0 ∧
     (GarbageListInDRAM.AddGarbage wNodeTail 9 ⟨5, 60⟩ ⟨5, 70⟩
        1024).tail.dram.end_pos_ = wNodeTail.dram.end_pos_ + 1 ∧
     (wNodeTail.dram.end_pos_ = kBufferSize - 1 →
       (GarbageListInDRAM.AddGarbage wNodeTail 9 ⟨5, 60⟩ ⟨5, 70⟩
          1024).moved = true ∧
       (GarbageListInDRAM.AddGarbage wNodeTail 9 ⟨5, 60⟩ ⟨5, 70⟩
          1024).tail.next = ⟨5, 70⟩ ∧
       (GarbageListInDRAM.AddGarbage wNodeTail 9 ⟨5, 60⟩ ⟨5, 70⟩
          1024).tail.dram.next_ = 1024 ∧
       (GarbageListInDRAM.AddGarbage wNodeTail 9 ⟨5, 60⟩ ⟨5, 70⟩
          1024).created = some
            { next := OID_NULL, tmp := OID_NULL,
              garbages_ := fun _ => OID_NULL,
              dram := GarbageListInDRAM.init }) ∧
     (wNodeTail.dram.end_pos_ ≠ kBufferSize - 1 →
       (GarbageListInDRAM.AddGarbage wNodeTail 9 ⟨5, 60⟩ ⟨5, 70⟩
          1024).moved = false ∧
       (GarbageListInDRAM.AddGarbage wNodeTail 9 ⟨5, 60⟩ ⟨5, 70⟩
          1024).created = none ∧
       (GarbageListInDRAM.AddGarbage wNodeTail 9 ⟨5, 60⟩ ⟨5, 70⟩
          1024).tail.next = wNodeTail.next ∧
       (GarbageListInDRAM.AddGarbage wNodeTail 9 ⟨5, 60⟩ ⟨5, 70⟩
          1024).tail.dram.next_ = wNodeTail.dram.next_)) :=
  ⟨by decide,
   claim_C6_dram_add_garbage wNodeTail 9 ⟨5, 60⟩ ⟨5, 70⟩ 1024 (by decide)⟩

/-- C1: during `GarbageListInDRAM::Destruct<T>` and `Clear<T>` with
protected epoch `P`, a slot `i` of a chain node `n` that is pending at
entry (`mid_pos_ ≤ i < end_pos_`) has its finalizer run and/or its
handle released only if `epochs_[i] < P`: when `P ≤ epochs_[i]`, neither
call produces a destruct or release event for that slot. -/
theorem claim_C1_pending_epoch_guard (hasDtor : Bool) (P : Nat)
    (chain : List DNode) (hnd : (chain.map DNode.nid).Nodup)
    (n : DNode) (hn : n ∈ chain) (i : Nat)
    (hmid : n.dram.mid_pos_ ≤ i) (hend : i < n.dram.end_pos_)
    (hep : P ≤ n.dram.epochs_ i) :
    Event.destructed n.nid i ∉ (GarbageListInDRAM.Destruct hasDtor P chain).2 ∧
    Event.released n.nid i ∉ (GarbageListInDRAM.Destruct hasDtor P chain).2 ∧
    Event.destructed n.nid i ∉ (GarbageListInDRAM.Clear hasDtor P chain).2 ∧
    Event.released n.nid i ∉ (GarbageListInDRAM.Clear hasDtor P chain).2 := by
  have main : ∀ ev : Event, sweepSound P chain ev →
      ev = Event.destructed n.nid i ∨ ev = Event.released n.nid i → False := by
    rintro ev ⟨m, hm, hcase⟩ hev
    rcases hcase with hfree | ⟨j, hctor, hprop⟩
    · rcases hev with rfl | rfl <;> simp at hfree
    · have hkey : m.nid = n.nid ∧ j = i := by
        rcases hev with rfl | rfl <;> rcases hctor with hc | hc
        · simp only [Event.destructed.injEq] at hc
          exact ⟨hc.1.symm, hc.2.symm⟩
        · simp at hc
        · simp at hc
        · simp only [Event.released.injEq] at hc
          exact ⟨hc.1.symm, hc.2.symm⟩
      have hmn : m = n := List.inj_on_of_nodup_map hnd hm hn hkey.1
      subst hmn
      rcases hkey with ⟨-, rfl⟩
      exact absurd (hprop hmid hend) (by omega)
  exact ⟨fun hmem => main _ (destructLoop_sound hasDtor P chain none _ hmem) (Or.inl rfl),
    fun hmem => main _ (destructLoop_sound hasDtor P chain none _ hmem) (Or.inr rfl),
    fun hmem => main _ (clearLoop_sound hasDtor P chain _ hmem) (Or.inl rfl),
    fun hmem => main _ (clearLoop_sound hasDtor P chain _ hmem) (Or.inr rfl)⟩

/-- Closed instantiation of the C1 theorem: a one-node chain with a
pending slot at epoch 5 survives both sweeps at protected epoch 3. -/
theorem claim_C1_pending_epoch_guard_witness :
    ([wDNodePending].map DNode.nid).Nodup ∧
    wDNodePending ∈ [wDNodePending] ∧
    wDNodePending.dram.mid_pos_ ≤ 0 ∧
    (0 : Nat) < wDNodePending.dram.end_pos_ ∧
    (3 : Nat) ≤ wDNodePending.dram.epochs_ 0 ∧
    (Event.destructed wDNodePending.nid 0 ∉
      (GarbageListInDRAM.Destruct true 3 [wDNodePending]).2 ∧
     Event.released wDNodePending.nid 0 ∉
      (GarbageListInDRAM.Destruct true 3 [wDNodePending]).2 ∧
     Event.destructed wDNodePending.nid 0 ∉
      (GarbageListInDRAM.Clear true 3 [wDNodePending]).2 ∧
     Event.released wDNodePending.nid 0 ∉
      (GarbageListInDRAM.Clear true 3 [wDNodePending]).2) :=
  ⟨by decide, List.mem_singleton.mpr rfl, by decide, by decide, by decide,
   claim_C1_pending_epoch_guard true 3 [wDNodePending] (by decide)
     wDNodePending (List.mem_singleton.mpr rfl) 0 (by decide) (by decide)
     (by decide)⟩

/-- C2: the predicate `0 ≤ begin_pos_ ≤ mid_pos_ ≤ end_pos_ ≤
kBufferSize` holds in the zero-initialized volatile half and is
preserved by every index-writing operation: `AddGarbage` (whose inherent
precondition is a non-full tail, since it writes `epochs_[end_pos_]`),
`ReusePage`, and — across every node of the resulting chain —
`Destruct<T>` and `Clear<T>`. -/
theorem claim_C2_index_invariant :
    GarbageListInDRAM.init.Inv ∧
    (∀ (tail : Node) (epoch : Nat) (garbage freshOid : PMEMoid)
        (freshPtr : Nat), tail.dram.Inv →
      tail.dram.end_pos_ < kBufferSize →
      (GarbageListInDRAM.AddGarbage tail epoch garbage freshOid
        freshPtr).tail.dram.Inv ∧
      (∀ nn, (GarbageListInDRAM.AddGarbage tail epoch garbage freshOid
        freshPtr).created = some nn → nn.dram.Inv)) ∧
    (∀ (head : Node) (out0 : PMEMoid), head.dram.Inv →
      (GarbageListInDRAM.ReusePage head out0).node.dram.Inv) ∧
    (∀ (hasDtor : Bool) (P : Nat) (chain out : List DNode),
      (∀ n ∈ chain, n.dram.Inv) →
      (GarbageListInDRAM.Destruct hasDtor P chain).1 = some out →
      ∀ n ∈ out, n.dram.Inv) ∧
    (∀ (hasDtor : Bool) (P : Nat) (chain out : List DNode),
      (∀ n ∈ chain, n.dram.Inv) →
      (GarbageListInDRAM.Clear hasDtor P chain).1 = some out →
      ∀ n ∈ out, n.dram.Inv) := by
  refine ⟨by decide, ?_, ?_, ?_, ?_⟩
  · intro tail epoch garbage freshOid freshPtr hInv hend
    rcases hInv with ⟨h1, h2, h3⟩
    constructor
    · unfold GarbageListInDRAM.AddGarbage GarbageListInDRAM.Inv
      dsimp only
      split <;> dsimp <;> omega
    · intro nn hnn
      unfold GarbageListInDRAM.AddGarbage at hnn
      dsimp only at hnn
      split at hnn
      · rcases Option.some_inj.mp hnn with rfl
        decide
      · simp at hnn
  · intro head out0 hInv
    rcases hInv with ⟨h1, h2, h3⟩
    unfold GarbageListInDRAM.ReusePage GarbageListInDRAM.Inv
    dsimp only
    split
    · exact ⟨h1, h2, h3⟩
    · rename_i hne
      split <;> dsimp <;> omega
  · intro hasDtor P chain out hinv hout
    exact destructLoop_inv hasDtor P chain none out hout hinv
  · intro hasDtor P chain out hinv hout
    exact clearLoop_inv hasDtor P chain out hout hinv

/-- Closed instantiation of the C2 theorem on concrete nodes: the
zero-initialized state, an `AddGarbage` on a non-full tail, a
`ReusePage` on a head with a reusable slot, and the two sweeps on a
one-node chain with a pending slot. -/
theorem claim_C2_index_invariant_witness :
    GarbageListInDRAM.init.Inv ∧
    (wNodeTail.dram.Inv ∧ wNodeTail.dram.end_pos_ < kBufferSize ∧
     ((GarbageListInDRAM.AddGarbage wNodeTail 9 ⟨5, 60⟩ ⟨5, 70⟩
        1024).tail.dram.Inv ∧
      (∀ nn, (GarbageListInDRAM.AddGarbage wNodeTail 9 ⟨5, 60⟩ ⟨5, 70⟩
        1024).created = some nn → nn.dram.Inv))) ∧
    (wNodeHead.dram.Inv ∧
     (GarbageListInDRAM.ReusePage wNodeHead OID_NULL).node.dram.Inv) ∧
    ((∀ n ∈ [wDNodePending], n.dram.Inv) ∧
     (GarbageListInDRAM.Destruct false 7 [wDNodePending]).1 =
       some [wDNodePendingMid] ∧
     (∀ n ∈ [wDNodePendingMid], n.dram.Inv)) ∧
    ((GarbageListInDRAM.Clear false 7 [wDNodePending]).1 =
       some [wDNodePendingDone] ∧
     (∀ n ∈ [wDNodePendingDone], n.dram.Inv)) :=
  ⟨claim_C2_index_invariant.1,
   ⟨by decide, by decide,
    claim_C2_index_invariant.2.1 wNodeTail 9 ⟨5, 60⟩ ⟨5, 70⟩ 1024
      (by decide) (by decide)⟩,
   ⟨by decide,
    claim_C2_index_invariant.2.2.1 wNodeHead OID_NULL (by decide)⟩,
   ⟨by decide, rfl,
    claim_C2_index_invariant.2.2.2.1 false 7 [wDNodePending]
      [wDNodePendingMid] (by decide) rfl⟩,
   ⟨rfl,
    claim_C2_index_invariant.2.2.2.2 false 7 [wDNodePending]
      [wDNodePendingDone] (by decide) rfl⟩⟩

/-- C3: `GarbageListInPMEM::ReleaseAllGarbages(tls)` on a non-null
`tls->head` frees exactly those non-null durable slots of the chain
rooted at `tls->head` that equal (in both `pool_uuid_lo` and `off`) no
scratch slot `tls->tmp_oids[j]`, `j < kTmpFieldNum`; it pops every node
via `ExchangeHead` until the stored `next` is null and then frees the
last node through `tls->head`, so that afterwards `tls->head` is null
and every node of the chain has been freed. -/
theorem claim_C3_release_all_garbages (tls : TLSFields) (chain : List PNode)
    (hwf : wfChain tls.head chain = true) (hne : tls.head.off ≠ 0)
    (hnd : (chain.map PNode.nid).Nodup) :
    (GarbageListInPMEM.ReleaseAllGarbages tls chain).1.head = OID_NULL ∧
    (∀ n ∈ chain, Event.freedNode n.nid ∈
      (GarbageListInPMEM.ReleaseAllGarbages tls chain).2) ∧
    (∀ n ∈ chain, ∀ i, i < kBufferSize →
      (Event.released n.nid i ∈
          (GarbageListInPMEM.ReleaseAllGarbages tls chain).2 ↔
        ((n.garbages_ i).off ≠ 0 ∧
          ∀ j, j < kTmpFieldNum →
            ¬((tls.tmp_oids j).off = (n.garbages_ i).off ∧
              (tls.tmp_oids j).pool_uuid_lo =
                (n.garbages_ i).pool_uuid_lo)))) := by
  have hnull : OID_IS_NULL tls.head = false := by
    simp [OID_IS_NULL, hne]
  have hhead : (tmpHeadReconcile tls).head = tls.head := by
    unfold tmpHeadReconcile
    split <;> rfl
  have htmps : (tmpHeadReconcile tls).tmp_oids = tls.tmp_oids := by
    unfold tmpHeadReconcile
    split <;> rfl
  have hwf1 : wfChain (tmpHeadReconcile tls).head chain = true := by
    rw [hhead]; exact hwf
  have hchne : chain ≠ [] := by
    intro hc
    subst hc
    simp [wfChain] at hwf
    exact hne hwf
  have htop : GarbageListInPMEM.ReleaseAllGarbages tls chain =
      ((releaseAllLoop (tmpHeadReconcile tls) chain).1,
       tmpHeadEvents tls ++ (releaseAllLoop (tmpHeadReconcile tls) chain).2) := by
    unfold GarbageListInPMEM.ReleaseAllGarbages
    rw [hnull]
    simp
  have hevs := releaseAllLoop_events chain (tmpHeadReconcile tls) hwf1
  rw [htmps] at hevs
  refine ⟨?_, ?_, ?_⟩
  · rw [htop]
    exact releaseAllLoop_head_null chain (tmpHeadReconcile tls) hwf1 hchne
  · intro n hn
    rw [htop]
    refine List.mem_append_right _ ?_
    rw [hevs]
    refine List.mem_flatMap.mpr ⟨n, hn, ?_⟩
    simp
  · intro n hn i hi
    rw [htop]
    constructor
    · intro hmem
      rcases List.mem_append.mp hmem with hmem | hmem
      · rcases tmpHeadEvents_shape hmem with ⟨x, hx⟩
        exact Event.noConfusion hx
      · rw [hevs] at hmem
        rcases List.mem_flatMap.mp hmem with ⟨m, hm, hblock⟩
        rcases List.mem_append.mp hblock with hblock | hblock
        · rcases List.mem_append.mp hblock with hblock | hblock
          · rcases tmpReconcileEvents_shape hblock with ⟨x, hx⟩
            exact Event.noConfusion hx
          · rcases releaseSlotEvents_released_mem.mp hblock with
              ⟨hnid, hiB, hno, hns⟩
            have hmn : m = n := List.inj_on_of_nodup_map hnd hm hn hnid.symm
            subst hmn
            constructor
            · intro h0
              rw [OID_IS_NULL] at hno
              rw [h0] at hno
              simp at hno
            · intro j hj hcon
              have habs : hasSameIn tls.tmp_oids (m.garbages_ i) = true :=
                hasSame_iff.mpr ⟨j, hj, hcon.1, hcon.2⟩
              rw [hns] at habs
              exact Bool.noConfusion habs
        · rw [List.mem_singleton] at hblock
          exact Event.noConfusion hblock
    · rintro ⟨hoff, hforall⟩
      refine List.mem_append_right _ ?_
      rw [hevs]
      refine List.mem_flatMap.mpr ⟨n, hn, ?_⟩
      refine List.mem_append.mpr (Or.inl (List.mem_append.mpr (Or.inr ?_)))
      refine releaseSlotEvents_released_mem.mpr ⟨rfl, hi, ?_, ?_⟩
      · simp [OID_IS_NULL, hoff]
      · refine Bool.eq_false_iff.mpr ?_
        intro habs
        rcases hasSame_iff.mp habs with ⟨j, hj, e1, e2⟩
        exact hforall j hj ⟨e1, e2⟩

/-- Closed instantiation of the C3 theorem on a two-node chain where
slot 0 of the first node matches the in-flight scratch handle while slot
1 does not. -/
theorem claim_C3_release_all_garbages_witness :
    wfChain wTls.head [wPNode1, wPNode2] = true ∧
    wTls.head.off ≠ 0 ∧
    ([wPNode1, wPNode2].map PNode.nid).Nodup ∧
    ((GarbageListInPMEM.ReleaseAllGarbages wTls [wPNode1, wPNode2]).1.head =
      OID_NULL ∧
     (∀ n ∈ [wPNode1, wPNode2], Event.freedNode n.nid ∈
       (GarbageListInPMEM.ReleaseAllGarbages wTls [wPNode1, wPNode2]).2) ∧
     (∀ n ∈ [wPNode1, wPNode2], ∀ i, i < kBufferSize →
       (Event.released n.nid i ∈
           (GarbageListInPMEM.ReleaseAllGarbages wTls [wPNode1, wPNode2]).2 ↔
         ((n.garbages_ i).off ≠ 0 ∧
           ∀ j, j < kTmpFieldNum →
             ¬((wTls.tmp_oids j).off = (n.garbages_ i).off ∧
               (wTls.tmp_oids j).pool_uuid_lo =
                 (n.garbages_ i).pool_uuid_lo))))) :=
  ⟨by decide, by decide, by decide,
   claim_C3_release_all_garbages wTls [wPNode1, wPNode2] (by decide)
     (by decide) (by decide)⟩

/-- C8: a `ListHeader::ClearGarbage(protected_epoch)` call that acquires
the lock on a bound header with a non-null durable head runs the
appropriate sweep, and then frees the durable head handle and nulls
`cli_head_`/`cli_tail_` if and only if the owner's heartbeat has expired
and the new head node's volatile half is `Empty()` (which holds exactly
when `end_pos_ - begin_pos_ == 0` in `size_t` arithmetic and
`end_pos_ < kBufferSize`); when either condition fails, `cli_head_`,
`cli_tail_` and the durable head are left unchanged by the post-clear
epilogue. -/
theorem claim_C8_clear_garbage_epilogue (s : ListHeader) (P : Nat)
    (h : DNode) (t : List DNode) (evs : List Event)
    (hbound : s.bound = true) (hne : s.chain ≠ [])
    (hrun : (if !s.kReusePages then
               GarbageListInDRAM.Clear s.hasDtor P s.chain
             else if !s.heartbeat_expired then
               GarbageListInDRAM.Destruct s.hasDtor P s.chain
             else GarbageListInDRAM.Clear s.hasDtor P s.chain) =
      (some (h :: t), evs)) :
    (s.heartbeat_expired = true ∧ h.dram.Empty = true →
      s.ClearGarbage true P =
        (some { s with chain := [], cli_head_ := none, cli_tail_ := none },
         evs ++ [Event.freedNode h.nid])) ∧
    ((s.heartbeat_expired = false ∨ h.dram.Empty = false) →
      s.ClearGarbage true P = (some { s with chain := h :: t }, evs)) := by
  obtain ⟨hbOn, cliH, cliT, bnd, chain, rp, hdt⟩ := s
  dsimp only at hbound hne hrun ⊢
  subst hbound
  rcases chain with _ | ⟨c, cs⟩
  · exact absurd rfl hne
  · unfold ListHeader.ClearGarbage
    dsimp only
    rw [hrun]
    dsimp only
    constructor
    · rintro ⟨hb1, he1⟩
      subst hb1
      simp [he1]
    · rintro (hb1 | he1)
      · subst hb1
        simp
      · simp [he1]

/-- Closed instantiation of the C8 theorem on a header holding a single
empty node: with the owner dead the epilogue frees the head and nulls
the client pointers; with the owner alive it leaves them unchanged. -/
theorem claim_C8_clear_garbage_epilogue_witness :
    wHdrDead.bound = true ∧ wHdrDead.chain ≠ [] ∧
    (wHdrDead.heartbeat_expired = true ∧ wDNodeZero.dram.Empty = true) ∧
    wHdrDead.ClearGarbage true 7 =
      (some { wHdrDead with chain := [], cli_head_ := none, cli_tail_ := none },
       [] ++ [Event.freedNode wDNodeZero.nid]) ∧
    (wHdrLive.heartbeat_expired = false ∨ wDNodeZero.dram.Empty = false) ∧
    wHdrLive.ClearGarbage true 7 =
      (some { wHdrLive with chain := wDNodeZero :: [] }, []) :=
  ⟨rfl, by simp [wHdrDead],
   ⟨rfl, by decide⟩,
   (claim_C8_clear_garbage_epilogue wHdrDead 7 wDNodeZero [] [] rfl
     (by simp [wHdrDead]) rfl).1 ⟨rfl, by decide⟩,
   Or.inl rfl,
   (claim_C8_clear_garbage_epilogue wHdrLive 7 wDNodeZero [] [] rfl
     (by simp [wHdrLive, wHdrDead]) rfl).2 (Or.inl rfl)⟩
